import Mathlib

/-!
Verification of the retrieval-and-selection pipeline implemented in
`src/app/api/synthesizer-agent/route.ts`.

The TypeScript route is shallowly embedded below.  JavaScript strings are
modelled as Lean `String` (a wrapped `List Char`); the string primitives the
route uses (`trim`, `slice`, `toLowerCase`, `includes`, split on `/\W+/`,
`join`) are defined structurally over the character list so that they are
executable and kernel-reducible.  `Array.prototype.sort`, which is a stable
sort per the ECMAScript specification, is modelled by the stable
`List.insertionSort`.  The two outbound model calls are modelled by their
observable results: the selector response (a parse outcome plus the runtime
type of its `selected_indices` field) and the answerer response (an optional
content string).
-/

namespace SynthesizerAgent

/-! ### JavaScript string primitives -/

/-- Model of `s.slice(0, n)` on a JavaScript string. -/
def jsSlice (s : String) (n : Nat) : String :=
  String.mk (s.data.take n)

/-- Model of `String.prototype.trim`: drop leading and trailing whitespace. -/
def jsTrim (s : String) : String :=
  String.mk (((s.data.dropWhile Char.isWhitespace).reverse.dropWhile
    Char.isWhitespace).reverse)

/-- Model of `String.prototype.toLowerCase` (ASCII case mapping). -/
def jsToLower (s : String) : String :=
  String.mk (s.data.map Char.toLower)

/-- Word characters of the regex class `\w`, i.e. `[A-Za-z0-9_]`. -/
def wordChar (c : Char) : Bool :=
  c.isAlphanum || c = '_'

/-- Maximal runs of word characters of a character list; `cur` is the
current run, accumulated in reverse.  This computes exactly
`str.split(/\W+/).filter(Boolean)`: splitting on runs of non-word
characters and discarding empty fragments leaves the maximal word runs. -/
def tokenRuns : List Char → List Char → List (List Char)
  | [], cur => if cur = [] then [] else [cur.reverse]
  | c :: cs, cur =>
    if wordChar c then tokenRuns cs (c :: cur)
    else if cur = [] then tokenRuns cs []
    else cur.reverse :: tokenRuns cs []

/-- `query.toLowerCase().split(/\W+/).filter(Boolean)` from `score`. -/
def queryTerms (query : String) : List String :=
  (tokenRuns (jsToLower query).data []).map String.mk

/-- Model of `hay.includes(needle)`: substring occurrence test. -/
def jsIncludes (hay needle : String) : Bool :=
  (List.range (hay.data.length + 1)).any fun i =>
    needle.data.isPrefixOf (hay.data.drop i)

/-! ### Configuration constants of the route -/

def MAX_QUESTION_LEN : Nat := 1000

def PREFILTER_TOP_K : Nat := 50

def MAX_SELECTED : Nat := 4

/-! ### Data model -/

/-- A CSV row with headers `Path,Content`. -/
structure Row where
  Path : String
  Content : String
  deriving DecidableEq

/-- One indexed document: a path, its grouped content fragments, and the
short preview used by the selector step. -/
structure PathDoc where
  path : String
  contents : List String
  preview : String
  deriving DecidableEq

/-- One prefilter candidate, as produced by `topPathCandidates`:
original index in the loaded index, the document, and its score. -/
structure Cand where
  idx : Nat
  doc : PathDoc
  s : Nat
  deriving DecidableEq

/-! ### `score`: lightweight keyword scoring for the prefilter -/

/-- The `score` function of the route: lower-case the query, split it on
non-word characters, drop empty tokens, and count (with multiplicity, one
per entry of the token list) the tokens occurring as substrings of the
lower-cased haystack. -/
def score (hay query : String) : Nat :=
  (queryTerms query).countP fun t => jsIncludes (jsToLower hay) t

/-- The per-document prefilter score used in `topPathCandidates`:
`score(doc.path, query) * 2 + score(doc.preview, query)`. -/
def prefilterScore (doc : PathDoc) (query : String) : Nat :=
  score doc.path query * 2 + score doc.preview query

/-- `index.map((doc, idx) => ({idx, doc, s}))` of `topPathCandidates`. -/
def candidatesOf (index : List PathDoc) (query : String) : List Cand :=
  index.enum.map fun p => ⟨p.1, p.2, prefilterScore p.2 query⟩

/-- The comparator `(a, b) => b.s - a.s`: `a` may precede `b` exactly when
`b.s ≤ a.s`. -/
def candLE (a b : Cand) : Prop := b.s ≤ a.s

instance : DecidableRel candLE := fun a b => inferInstanceAs (Decidable (b.s ≤ a.s))

instance : IsTotal Cand candLE := ⟨fun a b => Nat.le_total b.s a.s⟩

instance : IsTrans Cand candLE := ⟨fun _ _ _ hab hbc => Nat.le_trans hbc hab⟩

/-- Model of `ranked.sort((a, b) => b.s - a.s)`.  ECMAScript `Array#sort`
is stable, so it is modelled by the stable `List.insertionSort`. -/
def jsSortDesc (l : List Cand) : List Cand :=
  List.insertionSort candLE l

/-- `topPathCandidates(query, k)` of the route, with the loaded index made
an explicit argument: score every document, sort descending by score
(stable), and keep the first `min(k, ranked.length)` entries. -/
def topPathCandidates (query : String) (k : Nat) (index : List PathDoc) :
    List Cand :=
  let ranked := jsSortDesc (candidatesOf index query)
  ranked.take (min k ranked.length)

/-! ### Loading and indexing the CSV (`loadPathIndex`) -/

/-- The body of the row loop of `loadPathIndex`: trim path and content,
skip the row if either is empty, otherwise append the content to the
fragment list of the path.  The JavaScript `Map` keeps insertion order, so
it is modelled by an association list to which new keys are appended. -/
def addToMap : List (String × List String) → String → String →
    List (String × List String)
  | [], p, c => [(p, [c])]
  | (q, cs) :: rest, p, c =>
    if q = p then (q, cs ++ [c]) :: rest else (q, cs) :: addToMap rest p c

/-- One step of the `for (const r of rows)` loop of `loadPathIndex`. -/
def rowStep (m : List (String × List String)) (r : Row) :
    List (String × List String) :=
  let path := jsTrim r.Path
  let content := jsTrim r.Content
  if path = "" ∨ content = "" then m else addToMap m path content

/-- The grouping loop of `loadPathIndex`. -/
def groupRows (rows : List Row) : List (String × List String) :=
  rows.foldl rowStep []

/-- The index-building loop of `loadPathIndex`:
`joinedPreview = contents.join(" ").slice(0, 500)`. -/
def mkPathDoc (p : String × List String) : PathDoc :=
  ⟨p.1, p.2, jsSlice (String.intercalate " " p.2) 500⟩

/-- `loadPathIndex` applied to freshly parsed rows (cache cold). -/
def buildIndex (rows : List Row) : List PathDoc :=
  (groupRows rows).map mkPathDoc

/-- `loadPathIndex` with the module-level `PATH_INDEX` cache made explicit:
given the rows the source file would parse to and the current cache,
return the result and the new cache.  A populated cache is returned as is,
without touching the rows. -/
def loadPathIndex (rows : List Row) :
    Option (List PathDoc) → List PathDoc × Option (List PathDoc)
  | some idx => (idx, some idx)
  | none => (buildIndex rows, some (buildIndex rows))

/-! ### Selector response parsing (`toNumberArray` and validation) -/

/-- A JSON array element of `selected_indices`, modelled by the outcome of
the `Number(x)` coercion performed by `toNumberArray`: either it is a
number for which `Number.isInteger` holds (carrying that integer), or it
is not (a fractional number, `NaN`, a non-numeric string, an object, …). -/
inductive JItem where
  | int (n : Int)
  | nonInt
  deriving DecidableEq

/-- The runtime shape of `payload.selected_indices`: absent (`undefined`),
present but not an array, or an array of elements. -/
inductive SelVal where
  | undef
  | notArr
  | arr (xs : List JItem)
  deriving DecidableEq

/-- The observable outcome of the selector call: either `JSON.parse` of the
response body throws (the catch block keeps `payload = {}`), or it yields a
payload whose `selected_indices` field has the given shape. -/
inductive SelectorResponse where
  | parseFail
  | parsed (v : SelVal)
  deriving DecidableEq

/-- The `selected_indices` value the route goes on to validate.  On a parse
failure the payload is `{}`, so the field is absent. -/
def payloadIndices : SelectorResponse → SelVal
  | .parseFail => .undef
  | .parsed v => v

/-- `toNumberArray`: a non-array yields `[]`; from an array keep, in order,
exactly the elements whose `Number` coercion is an integer. -/
def toNumberArray : SelVal → List Int
  | .arr xs => xs.filterMap fun x => match x with | .int n => some n | .nonInt => none
  | _ => []

/-- `Array.from(new Set(selected))`: JavaScript `Set` iterates in insertion
order, so this keeps the first occurrence of each value. -/
def dedupFirst {α : Type} [DecidableEq α] : List α → List α → List α
  | [], _ => []
  | x :: xs, seen =>
    if x ∈ seen then dedupFirst xs seen else x :: dedupFirst xs (x :: seen)

/-- The `chosenIdxes` computation of the route: coerce, keep values in
`[1, n]`, deduplicate, cap at `MAX_SELECTED`; if nothing usable is left,
fall back to `[1, 2, 3].slice(0, Math.min(3, n))`. -/
def chosenIdxes (resp : SelectorResponse) (n : Nat) : List Int :=
  let selected := (toNumberArray (payloadIndices resp)).filter fun m =>
    decide (1 ≤ m) && decide (m ≤ (n : Int))
  let unique := (dedupFirst selected ([] : List Int)).take MAX_SELECTED
  if 0 < unique.length then unique else ([1, 2, 3] : List Int).take (min 3 n)

/-- Model of the JavaScript array access `ranked[i]`, which yields
`undefined` (here `none`) outside the bounds. -/
def jsGet (ranked : List Cand) (i : Int) : Option Cand :=
  if i < 0 then none else ranked[i.toNat]?

/-- The `for (const oneBased of chosenIdxes)` resolution loop.  Reading
`ranked[oneBased - 1]` out of bounds would destructure `undefined` and
throw, which the outer catch turns into a 500; that outcome is `none`. -/
def pickDocsLoop (ranked : List Cand) :
    List Int → List PathDoc → List String → Option (List PathDoc)
  | [], picked, _ => some picked
  | oneBased :: rest, picked, seen =>
    match jsGet ranked (oneBased - 1) with
    | none => none
    | some c =>
      let picked' := if c.doc.path ∈ seen then picked else picked ++ [c.doc]
      let seen' := if c.doc.path ∈ seen then seen else seen ++ [c.doc.path]
      if MAX_SELECTED ≤ picked'.length then some picked'
      else pickDocsLoop ranked rest picked' seen'

/-- Steps 2–3 of the route after the prefilter: validate the selector
response and resolve the chosen one-based indices to documents. -/
def selectDocs (ranked : List Cand) (resp : SelectorResponse) :
    Option (List PathDoc) :=
  pickDocsLoop ranked (chosenIdxes resp ranked.length) [] []

/-! ### Answer prompt and response assembly -/

/-- The `Context` blocks of `buildAnswerPrompt`: each selected document
tagged by its path, with the entire content joined (no clipping). -/
def buildAnswerContext (docs : List PathDoc) : String :=
  String.intercalate "\n\n" (docs.map fun doc =>
    "[" ++ doc.path ++ "]\n" ++ String.intercalate "\n\n" doc.contents)

/-- The user message of `buildAnswerPrompt`. -/
def answerUserMessage (question : String) (docs : List PathDoc) : String :=
  "Question: " ++ question ++ "\n\nContext:\n" ++ buildAnswerContext docs

/-- `answerResp.choices[0]?.message?.content?.trim() || ""`. -/
def answerTextOf : Option String → String
  | none => ""
  | some s => jsTrim s

/-- The `sources` string: `pickedDocs.map((d, i) => `${i+1}. **${d.path}**`).join("\n")`. -/
def sourcesFor (docs : List PathDoc) : String :=
  String.intercalate "\n"
    (docs.enum.map fun p => toString (p.1 + 1) ++ ". **" ++ p.2.path ++ "**")

/-! ### The `POST` handler -/

/-- The request body parse outcome: `req.json()` rejected (absorbed by
`.catch(() => ({}))`), or resolved with an optional `userScenario` field. -/
inductive BodyParse where
  | fail
  | ok (userScenario : Option String)
  deriving DecidableEq

/-- `(body?.userScenario ?? "").toString()` (for string-typed fields). -/
def bodyScenario : BodyParse → String
  | .fail => ""
  | .ok none => ""
  | .ok (some s) => s

/-- `const question = userScenario.slice(0, MAX_QUESTION_LEN).trim()`. -/
def questionOf (userScenario : String) : String :=
  jsTrim (jsSlice userScenario MAX_QUESTION_LEN)

/-- A JSON response of the route: the `advice` field and the HTTP status. -/
structure ApiResponse where
  advice : String
  status : Nat
  deriving DecidableEq

def apiKeyMissingMsg : String :=
  "OPENAI_API_KEY is missing. Set it in Vercel → Project Settings → Environment Variables."

def noContentMsg : String :=
  "No content available yet. Ensure public/data/meta.csv exists with Path and Content rows."

def serverErrorMsg : String :=
  "Server error while generating answer. Check logs & environment variables."

/-- The pipeline from step 1 on, applied to the clamped question.  The
`none` branch of `selectDocs` is the thrown out-of-bounds destructuring,
absorbed by the outer catch as a generic 500. -/
def afterQuestion (question : String) (index : List PathDoc)
    (resp : SelectorResponse) (ac : Option String) : ApiResponse :=
  let ranked := topPathCandidates question PREFILTER_TOP_K index
  if ranked = [] then ⟨noContentMsg, 200⟩
  else
    match selectDocs ranked resp with
    | none => ⟨serverErrorMsg, 500⟩
    | some pickedDocs =>
      ⟨answerTextOf ac ++ "\n\nSources:\n" ++ sourcesFor pickedDocs, 200⟩

/-- The `POST` handler, with its environment and the two model responses
made explicit arguments: API-key guard, body parse, question clamp and
emptiness check, then the pipeline. -/
def POST (apiKeyPresent : Bool) (body : BodyParse) (index : List PathDoc)
    (resp : SelectorResponse) (ac : Option String) : ApiResponse :=
  if apiKeyPresent = false then ⟨apiKeyMissingMsg, 500⟩
  else if questionOf (bodyScenario body) = "" then
    ⟨"Please provide a question.", 400⟩
  else afterQuestion (questionOf (bodyScenario body)) index resp ac

/-! ### Spec-side definitions, for comparison with the code -/

/-- Spec-side reading of the scoring rule, which counts DISTINCT query
tokens occurring as substrings of the lower-cased haystack (the code's
`score` counts every entry of the token list, repetitions included). -/
def distinctTermHits (hay query : String) : Nat :=
  (dedupFirst (queryTerms query) ([] : List String)).countP fun t =>
    jsIncludes (jsToLower hay) t

/-- The rows and paths of `loadPathIndex` that survive the trim-and-skip
filter, in row order. -/
def validPaths (rows : List Row) : List String :=
  (rows.filter fun r =>
    decide (¬(jsTrim r.Path = "" ∨ jsTrim r.Content = ""))).map fun r =>
      jsTrim r.Path

/-- Document of the spec's scoring example with path `Item 1 Business`. -/
def exampleBusinessDoc : PathDoc :=
  ⟨"Item 1 Business", [], "the company sells hardware"⟩

/-- Document of the spec's scoring example with path `Item 7 MD&A`. -/
def exampleMdaDoc : PathDoc :=
  ⟨"Item 7 MD&A", [], "revenue grew due to hardware demand"⟩

/-! ## Helper lemmas on the index construction -/

theorem addToMap_keys : ∀ (m : List (String × List String)) (p c : String),
    (addToMap m p c).map Prod.fst =
      if p ∈ m.map Prod.fst then m.map Prod.fst else m.map Prod.fst ++ [p]
  | [], p, c => by simp [addToMap]
  | (q, cs) :: rest, p, c => by
    by_cases hqp : q = p
    · subst hqp
      simp [addToMap]
    · simp only [addToMap, if_neg hqp, List.map_cons, addToMap_keys rest p c,
        List.mem_cons]
      by_cases hp : p ∈ rest.map Prod.fst
      · simp [hp]
      · have hpq : ¬p = q := fun h => hqp h.symm
        simp [hp, hpq]

theorem addToMap_keys_nodup (m : List (String × List String)) (p c : String)
    (h : (m.map Prod.fst).Nodup) : ((addToMap m p c).map Prod.fst).Nodup := by
  rw [addToMap_keys]
  by_cases hp : p ∈ m.map Prod.fst
  · rwa [if_pos hp]
  · rw [if_neg hp]
    simp [List.nodup_append, h, hp]

theorem addToMap_keys_mem (m : List (String × List String)) (p c p' : String) :
    p' ∈ (addToMap m p c).map Prod.fst ↔ p' ∈ m.map Prod.fst ∨ p' = p := by
  rw [addToMap_keys]
  by_cases hp : p ∈ m.map Prod.fst
  · rw [if_pos hp]
    exact ⟨fun h => Or.inl h, fun h => h.elim id fun e => e ▸ hp⟩
  · rw [if_neg hp]
    simp [List.mem_append]

theorem groupRows_go_nodup : ∀ (rows : List Row)
    (m : List (String × List String)), (m.map Prod.fst).Nodup →
    (((rows.foldl rowStep m)).map Prod.fst).Nodup
  | [], _, h => h
  | r :: rest, m, h => by
    simp only [List.foldl_cons]
    apply groupRows_go_nodup rest
    simp only [rowStep]
    split
    · exact h
    · exact addToMap_keys_nodup _ _ _ h

theorem groupRows_go_mem : ∀ (rows : List Row)
    (m : List (String × List String)) (p' : String),
    (p' ∈ ((rows.foldl rowStep m)).map Prod.fst ↔
      p' ∈ m.map Prod.fst ∨ p' ∈ validPaths rows)
  | [], m, p' => by simp [validPaths]
  | r :: rest, m, p' => by
    simp only [List.foldl_cons]
    rw [groupRows_go_mem rest _ p']
    by_cases hv : jsTrim r.Path = "" ∨ jsTrim r.Content = ""
    · have hstep : rowStep m r = m := by simp [rowStep, hv]
      have hval : validPaths (r :: rest) = validPaths rest := by
        have h1 : ¬(¬jsTrim r.Path = "" ∧ ¬jsTrim r.Content = "") := by tauto
        simp [validPaths, List.filter_cons, h1]
      rw [hstep, hval]
    · have hstep : rowStep m r = addToMap m (jsTrim r.Path) (jsTrim r.Content) := by
        simp [rowStep, hv]
      have hval : validPaths (r :: rest) = jsTrim r.Path :: validPaths rest := by
        have h1 : ¬jsTrim r.Path = "" ∧ ¬jsTrim r.Content = "" := by tauto
        simp [validPaths, List.filter_cons, h1]
      rw [hstep, hval, addToMap_keys_mem]
      simp only [List.mem_cons]
      tauto

theorem buildIndex_paths (rows : List Row) :
    (buildIndex rows).map PathDoc.path = (groupRows rows).map Prod.fst := by
  simp only [buildIndex, List.map_map]
  rfl

theorem buildIndex_paths_nodup (rows : List Row) :
    ((buildIndex rows).map PathDoc.path).Nodup := by
  rw [buildIndex_paths]
  exact groupRows_go_nodup rows [] (by simp)

end SynthesizerAgent

namespace SynthesizerAgent

/-! ## Claim C7: index construction and memoization -/

/-- Claim C7: for every row sequence, the built document index has one
document per distinct valid (non-empty trimmed) path: its path list is
duplicate-free and contains exactly the trimmed paths of the surviving
rows; a row with empty trimmed path or content contributes nothing; each
document's preview is the first 500 characters of its fragments joined by
a single space; and a second call to the loader returns the identical
cached result without consulting its row input again. -/
theorem claim_C7 : ∀ rows : List Row,
    ((buildIndex rows).map PathDoc.path).Nodup ∧
    (∀ p, p ∈ (buildIndex rows).map PathDoc.path ↔ p ∈ validPaths rows) ∧
    (∀ d ∈ buildIndex rows,
      d.preview = jsSlice (String.intercalate " " d.contents) 500) ∧
    (∀ (l1 l2 : List Row) (r : Row),
      jsTrim r.Path = "" ∨ jsTrim r.Content = "" →
      buildIndex (l1 ++ r :: l2) = buildIndex (l1 ++ l2)) ∧
    (∀ rows2 : List Row,
      loadPathIndex rows2 (loadPathIndex rows none).2 = loadPathIndex rows none) := by
  intro rows
  refine ⟨buildIndex_paths_nodup rows, ?_, ?_, ?_, ?_⟩
  · intro p
    rw [buildIndex_paths, groupRows]
    rw [groupRows_go_mem rows [] p]
    simp
  · intro d hd
    obtain ⟨p, _, rfl⟩ := List.mem_map.mp hd
    rfl
  · intro l1 l2 r hv
    simp only [buildIndex, groupRows, List.foldl_append, List.foldl_cons]
    have hstep : ∀ m, rowStep m r = m := by intro m; simp [rowStep, hv]
    rw [hstep]
  · intro rows2
    rfl

theorem claim_C7_witness :
    ((buildIndex [Row.mk " A " " x ", Row.mk "" "y"]).map PathDoc.path).Nodup ∧
    ("A" ∈ (buildIndex [Row.mk " A " " x ", Row.mk "" "y"]).map PathDoc.path ↔
      "A" ∈ validPaths [Row.mk " A " " x ", Row.mk "" "y"]) ∧
    buildIndex [Row.mk "B" "b", Row.mk "" "y", Row.mk "C" "c"] =
      buildIndex [Row.mk "B" "b", Row.mk "C" "c"] ∧
    loadPathIndex [Row.mk "D" "d"] (loadPathIndex [Row.mk "B" "b"] none).2 =
      loadPathIndex [Row.mk "B" "b"] none :=
  ⟨(claim_C7 [Row.mk " A " " x ", Row.mk "" "y"]).1,
    (claim_C7 [Row.mk " A " " x ", Row.mk "" "y"]).2.1 "A",
    (claim_C7 []).2.2.2.1 [Row.mk "B" "b"] [Row.mk "C" "c"] (Row.mk "" "y")
      (by decide),
    (claim_C7 [Row.mk "B" "b"]).2.2.2.2 [Row.mk "D" "d"]⟩

/-! ## Claim C10: malformed request bodies get a 400, not a 500 -/

/-- Claim C10: an unparseable body, or one without `userScenario`, yields
the advisory 400 response asking for a question (given the API key is
present, whose absence is an unconditional 500). -/
theorem claim_C10 : ∀ (index : List PathDoc) (resp : SelectorResponse)
    (ac : Option String),
    POST true BodyParse.fail index resp ac =
      ⟨"Please provide a question.", 400⟩ ∧
    POST true (BodyParse.ok none) index resp ac =
      ⟨"Please provide a question.", 400⟩ ∧
    (POST true BodyParse.fail index resp ac).status = 400 ∧
    (POST true (BodyParse.ok none) index resp ac).status = 400 := by
  intro index resp ac
  have h : questionOf "" = "" := rfl
  refine ⟨?_, ?_, ?_, ?_⟩ <;> simp [POST, bodyScenario, h]

/-! ## Claim C4: the question clamp truncates first, then trims -/

set_option maxRecDepth 100000 in
/-- Claim C4 counterexample: on a 1001-character input of 1000 spaces
followed by `a`, the code's question (truncate to 1000, then trim) is
empty, while trim-then-truncate as claimed would give `"a"`. -/
theorem claim_C4_counterexample :
    questionOf (String.mk (List.replicate 1000 ' ') ++ "a") ≠
      jsSlice (jsTrim (String.mk (List.replicate 1000 ' ') ++ "a"))
        MAX_QUESTION_LEN := by decide

/-- Claim C4 (amended): the question used by all downstream processing is
the result of first truncating `userScenario` to 1000 characters and then
trimming it; the handler's behavior depends on the body only through this
value. -/
theorem claim_C4 :
    (∀ s, questionOf s = jsTrim (jsSlice s MAX_QUESTION_LEN)) ∧
    ∀ s t, questionOf s = questionOf t →
      ∀ (key : Bool) (index : List PathDoc) (resp : SelectorResponse)
        (ac : Option String),
        POST key (BodyParse.ok (some s)) index resp ac =
          POST key (BodyParse.ok (some t)) index resp ac := by
  refine ⟨fun s => rfl, ?_⟩
  intro s t h key index resp ac
  simp only [POST, bodyScenario, h]

theorem claim_C4_witness :
    questionOf "q" = jsTrim (jsSlice "q" MAX_QUESTION_LEN) ∧
    POST true (BodyParse.ok (some "q ")) [] SelectorResponse.parseFail none =
      POST true (BodyParse.ok (some " q")) [] SelectorResponse.parseFail none :=
  ⟨claim_C4.1 "q",
    claim_C4.2 "q " " q" (by decide) true [] SelectorResponse.parseFail none⟩

/-! ## Claim C2: the spec's scoring example -/

/-- Claim C2 counterexample: on the spec's example documents and the query
`"hardware revenue"`, the first document does not score 3 (no query token
is a substring of `"item 1 business"`, so its path contributes nothing),
and it is not ranked first. -/
theorem claim_C2_counterexample :
    prefilterScore exampleBusinessDoc "hardware revenue" ≠ 3 ∧
    ((topPathCandidates "hardware revenue" 50
        [exampleBusinessDoc, exampleMdaDoc]).map fun c => c.doc.path) ≠
      ["Item 1 Business", "Item 7 MD&A"] := by decide

/-- Claim C2 (amended): the first document scores 1 (zero path-term hits,
one preview-term hit `hardware`), the second scores 2 (zero path-term
hits, two preview-term hits `hardware` and `revenue`), so the second
document is ranked first. -/
theorem claim_C2 :
    prefilterScore exampleBusinessDoc "hardware revenue" = 1 ∧
    prefilterScore exampleMdaDoc "hardware revenue" = 2 ∧
    ((topPathCandidates "hardware revenue" 50
        [exampleBusinessDoc, exampleMdaDoc]).map fun c => (c.doc.path, c.s)) =
      [("Item 7 MD&A", 2), ("Item 1 Business", 1)] := by decide

/-! ## Helper lemmas on the prefilter sort -/

theorem candidatesOf_pairwise_idx (index : List PathDoc) (q : String) :
    (candidatesOf index q).Pairwise fun a b => a.idx < b.idx := by
  unfold candidatesOf
  rw [List.pairwise_map, List.pairwise_iff_getElem]
  intro i j hi hj hij
  simp only [List.enum_eq_enumFrom, List.getElem_enumFrom]
  omega

theorem orderedInsert_pairwise_stable (a : Cand) :
    ∀ L : List Cand,
    L.Pairwise (fun x y => y.s ≤ x.s ∧ (x.s = y.s → x.idx < y.idx)) →
    (∀ b ∈ L, a.idx < b.idx) →
    (List.orderedInsert candLE a L).Pairwise
      fun x y => y.s ≤ x.s ∧ (x.s = y.s → x.idx < y.idx)
  | [], _, _ => by simp
  | c :: L', hp, hidx => by
    by_cases hac : candLE a c
    · rw [List.orderedInsert, if_pos hac]
      refine List.pairwise_cons.mpr ⟨?_, hp⟩
      intro y hy
      rcases List.mem_cons.mp hy with rfl | hyL
      · exact ⟨hac, fun _ => hidx _ (List.mem_cons_self _ _)⟩
      · have hcy := (List.pairwise_cons.mp hp).1 y hyL
        exact ⟨le_trans hcy.1 hac, fun _ => hidx _ hy⟩
    · rw [List.orderedInsert, if_neg hac]
      have hp' := (List.pairwise_cons.mp hp).2
      have hidx' : ∀ b ∈ L', a.idx < b.idx := fun b hb =>
        hidx b (List.mem_cons_of_mem _ hb)
      refine List.pairwise_cons.mpr
        ⟨?_, orderedInsert_pairwise_stable a L' hp' hidx'⟩
      intro y hy
      rcases (List.mem_orderedInsert candLE).mp hy with rfl | hyL'
      · have hlt : y.s < c.s := lt_of_not_le hac
        exact ⟨le_of_lt hlt, fun he => absurd he (by omega)⟩
      · exact (List.pairwise_cons.mp hp).1 y hyL'

theorem insertionSort_pairwise_stable :
    ∀ l : List Cand, l.Pairwise (fun a b => a.idx < b.idx) →
    (List.insertionSort candLE l).Pairwise
      fun x y => y.s ≤ x.s ∧ (x.s = y.s → x.idx < y.idx)
  | [], _ => by simp
  | a :: l, hp => by
    rw [List.insertionSort]
    refine orderedInsert_pairwise_stable a _
      (insertionSort_pairwise_stable l (List.pairwise_cons.mp hp).2) ?_
    intro b hb
    exact (List.pairwise_cons.mp hp).1 b ((List.mem_insertionSort candLE).mp hb)

theorem topPathCandidates_pairwise (q : String) (k : Nat)
    (index : List PathDoc) :
    (topPathCandidates q k index).Pairwise
      fun a b => b.s ≤ a.s ∧ (a.s = b.s → a.idx < b.idx) := by
  simp only [topPathCandidates, jsSortDesc]
  exact List.Pairwise.sublist (List.take_sublist _ _)
    (insertionSort_pairwise_stable _ (candidatesOf_pairwise_idx index q))

theorem mem_topPathCandidates {q : String} {k : Nat} {index : List PathDoc}
    {c : Cand} (hc : c ∈ topPathCandidates q k index) :
    c.s = prefilterScore c.doc q ∧ index[c.idx]? = some c.doc := by
  have h1 : c ∈ candidatesOf index q := by
    simp only [topPathCandidates, jsSortDesc] at hc
    exact (List.mem_insertionSort candLE).mp (List.mem_of_mem_take hc)
  obtain ⟨p, hp, rfl⟩ := List.mem_map.mp h1
  exact ⟨rfl, List.mem_enum_iff_getElem?.mp hp⟩

theorem topPathCandidates_length_le (q : String) (k : Nat)
    (index : List PathDoc) : (topPathCandidates q k index).length ≤ k := by
  simp only [topPathCandidates, jsSortDesc, List.length_take]
  omega

/-! ## Claim C6: the candidate list is sorted, stable, and bounded -/

/-- Claim C6: for every query, cutoff and index, the prefilter output has
at most `k` entries, is sorted by non-increasing score with ties in
original index order (stability of the sort), and each candidate's `idx`
is its document's position in the index. -/
theorem claim_C6 : ∀ (q : String) (k : Nat) (index : List PathDoc),
    (topPathCandidates q k index).length ≤ k ∧
    (topPathCandidates q k index).Pairwise
      (fun a b => b.s ≤ a.s ∧ (a.s = b.s → a.idx < b.idx)) ∧
    ∀ c ∈ topPathCandidates q k index, index[c.idx]? = some c.doc :=
  fun q k index =>
    ⟨topPathCandidates_length_le q k index,
      topPathCandidates_pairwise q k index,
      fun _ hc => (mem_topPathCandidates hc).2⟩

theorem claim_C6_witness :
    (topPathCandidates "alpha" 1
      [⟨"A", ["alpha"], "alpha"⟩, ⟨"B", ["b"], "b"⟩]).length ≤ 1 ∧
    ([⟨"A", ["alpha"], "alpha"⟩, ⟨"B", ["b"], "b"⟩] :
      List PathDoc)[(⟨0, ⟨"A", ["alpha"], "alpha"⟩, 1⟩ : Cand).idx]? =
        some (⟨0, ⟨"A", ["alpha"], "alpha"⟩, 1⟩ : Cand).doc :=
  ⟨(claim_C6 "alpha" 1 [⟨"A", ["alpha"], "alpha"⟩, ⟨"B", ["b"], "b"⟩]).1,
    (claim_C6 "alpha" 1 [⟨"A", ["alpha"], "alpha"⟩, ⟨"B", ["b"], "b"⟩]).2.2
      ⟨0, ⟨"A", ["alpha"], "alpha"⟩, 1⟩ (by decide)⟩

/-! ## Claim C3: the scoring formula counts tokens with multiplicity -/

/-- Claim C3 counterexample: with the single document at path `hardware`
and the query `"hardware hardware"`, the candidate score is 4 (the token
list holds `hardware` twice and each entry hits the path), not the 2 that
the claimed distinct-token count would give. -/
theorem claim_C3_counterexample :
    ¬ ∀ c ∈ topPathCandidates "hardware hardware" 50 [⟨"hardware", [], ""⟩],
      c.s = 2 * distinctTermHits c.doc.path "hardware hardware" +
        distinctTermHits c.doc.preview "hardware hardware" := by decide

/-- Claim C3 (amended): every produced candidate's score equals
`2 * pathTermHits + previewTermHits`, where the hits count entries of the
token list (query lower-cased, split on non-word characters, empties
discarded) occurring as substrings of the lower-cased path resp. preview —
counted with multiplicity, so a token repeated in the query contributes
once per occurrence. -/
theorem claim_C3 : ∀ (index : List PathDoc) (q : String) (k : Nat) (c : Cand),
    c ∈ topPathCandidates q k index →
    c.s = 2 * ((queryTerms q).countP fun t =>
        jsIncludes (jsToLower c.doc.path) t) +
      ((queryTerms q).countP fun t =>
        jsIncludes (jsToLower c.doc.preview) t) := by
  intro index q k c hc
  have h := (mem_topPathCandidates hc).1
  simp only [prefilterScore, score] at h
  omega

theorem claim_C3_witness :
    (⟨0, ⟨"hardware", [], ""⟩, 4⟩ : Cand).s =
      2 * ((queryTerms "hardware hardware").countP fun t =>
        jsIncludes (jsToLower (⟨0, ⟨"hardware", [], ""⟩, 4⟩ : Cand).doc.path) t) +
      ((queryTerms "hardware hardware").countP fun t =>
        jsIncludes (jsToLower (⟨0, ⟨"hardware", [], ""⟩, 4⟩ : Cand).doc.preview) t) :=
  claim_C3 [⟨"hardware", [], ""⟩] "hardware hardware" 50
    ⟨0, ⟨"hardware", [], ""⟩, 4⟩ (by decide)

/-! ## Helper lemmas on the selection step -/

theorem dedupFirst_subset {α : Type} [DecidableEq α] :
    ∀ (l seen : List α) (x : α), x ∈ dedupFirst l seen → x ∈ l
  | [], _, x, h => by simp [dedupFirst] at h
  | y :: ys, seen, x, h => by
    by_cases hy : y ∈ seen
    · rw [show dedupFirst (y :: ys) seen = dedupFirst ys seen from by
        simp [dedupFirst, hy]] at h
      exact List.mem_cons_of_mem _ (dedupFirst_subset ys seen x h)
    · rw [show dedupFirst (y :: ys) seen = y :: dedupFirst ys (y :: seen) from by
        simp [dedupFirst, hy]] at h
      rcases List.mem_cons.mp h with rfl | h'
      · exact List.mem_cons_self _ _
      · exact List.mem_cons_of_mem _ (dedupFirst_subset ys _ x h')

theorem fallback_mem : ∀ (n : Nat) (i : Int),
    i ∈ ([1, 2, 3] : List Int).take n → 1 ≤ i ∧ i ≤ (n : Int)
  | 0, i, hi => by simp at hi
  | 1, i, hi => by
    rw [show ([1, 2, 3] : List Int).take 1 = [1] from rfl] at hi
    simp at hi
    omega
  | 2, i, hi => by
    rw [show ([1, 2, 3] : List Int).take 2 = [1, 2] from rfl] at hi
    simp at hi
    rcases hi with rfl | rfl <;> omega
  | (m + 3), i, hi => by
    rw [List.take_of_length_le (by simp)] at hi
    simp at hi
    rcases hi with rfl | rfl | rfl <;> omega

theorem chosenIdxes_bounds (resp : SelectorResponse) (n : Nat) :
    ∀ i ∈ chosenIdxes resp n, 1 ≤ i ∧ i ≤ (n : Int) := by
  intro i hi
  simp only [chosenIdxes] at hi
  split at hi
  · have h1 := dedupFirst_subset _ _ _ (List.mem_of_mem_take hi)
    have h2 := (List.mem_filter.mp h1).2
    simp only [Bool.and_eq_true, decide_eq_true_eq] at h2
    exact h2
  · have := fallback_mem (min 3 n) i hi
    constructor
    · exact this.1
    · refine le_trans this.2 ?_
      omega

theorem jsGet_eq_some (ranked : List Cand) (i : Int) (h1 : 1 ≤ i)
    (h2 : i ≤ (ranked.length : Int)) :
    ∃ c, jsGet ranked (i - 1) = some c ∧ c ∈ ranked := by
  have hnot : ¬(i - 1 < 0) := by omega
  have hlt : (i - 1).toNat < ranked.length := by omega
  refine ⟨ranked[(i - 1).toNat], ?_, List.getElem_mem hlt⟩
  simp [jsGet, hnot, List.getElem?_eq_getElem hlt]

theorem pickDocsLoop_spec (ranked : List Cand) :
    ∀ (idxs : List Int) (picked : List PathDoc) (seen : List String),
    (∀ i ∈ idxs, 1 ≤ i ∧ i ≤ (ranked.length : Int)) →
    seen = picked.map PathDoc.path →
    (picked.map PathDoc.path).Nodup →
    picked.length < MAX_SELECTED →
    ∃ docs, pickDocsLoop ranked idxs picked seen = some docs ∧
      picked.length ≤ docs.length ∧ docs.length ≤ MAX_SELECTED ∧
      (docs.map PathDoc.path).Nodup ∧
      ∀ d ∈ docs, d ∈ picked ∨ d ∈ ranked.map Cand.doc
  | [], picked, seen, _, _, hnd, hlen =>
    ⟨picked, rfl, le_refl _, le_of_lt hlen, hnd, fun _ hd => Or.inl hd⟩
  | i :: rest, picked, seen, hidx, hseen, hnd, hlen => by
    obtain ⟨c, hc, hcmem⟩ := jsGet_eq_some ranked i
      (hidx i (List.mem_cons_self _ _)).1 (hidx i (List.mem_cons_self _ _)).2
    have hidx' : ∀ j ∈ rest, 1 ≤ j ∧ j ≤ (ranked.length : Int) :=
      fun j hj => hidx j (List.mem_cons_of_mem _ hj)
    by_cases hmem : c.doc.path ∈ seen
    · have hstep : pickDocsLoop ranked (i :: rest) picked seen =
          pickDocsLoop ranked rest picked seen := by
        simp only [pickDocsLoop, hc, if_pos hmem]
        rw [if_neg (by omega)]
      rw [hstep]
      exact pickDocsLoop_spec ranked rest picked seen hidx' hseen hnd hlen
    · have hseen' : seen ++ [c.doc.path] = (picked ++ [c.doc]).map PathDoc.path := by
        simp [hseen]
      have hnd' : ((picked ++ [c.doc]).map PathDoc.path).Nodup := by
        rw [List.map_append]
        simp only [List.nodup_append, List.map_cons, List.map_nil]
        refine ⟨hnd, List.nodup_singleton _, ?_⟩
        intro x hx
        simp only [List.mem_singleton]
        intro hxe
        exact hmem (hseen ▸ (hxe ▸ hx))
      by_cases hfull : MAX_SELECTED ≤ picked.length + 1
      · have hstep : pickDocsLoop ranked (i :: rest) picked seen =
            some (picked ++ [c.doc]) := by
          simp only [pickDocsLoop, hc, if_neg hmem]
          rw [if_pos (by simpa using hfull)]
        refine ⟨picked ++ [c.doc], hstep, by simp, by simp; omega, hnd', ?_⟩
        intro d hd
        rcases List.mem_append.mp hd with hd' | hd'
        · exact Or.inl hd'
        · simp only [List.mem_singleton] at hd'
          exact Or.inr (hd' ▸ List.mem_map_of_mem Cand.doc hcmem)
      · have hstep : pickDocsLoop ranked (i :: rest) picked seen =
            pickDocsLoop ranked rest (picked ++ [c.doc]) (seen ++ [c.doc.path]) := by
          simp only [pickDocsLoop, hc, if_neg hmem]
          rw [if_neg (by simpa using hfull)]
        rw [hstep]
        obtain ⟨docs, h1, h2, h3, h4, h5⟩ := pickDocsLoop_spec ranked rest
          (picked ++ [c.doc]) (seen ++ [c.doc.path]) hidx' hseen' hnd'
          (by simp only [List.length_append, List.length_singleton]; omega)
        refine ⟨docs, h1, ?_, h3, h4, ?_⟩
        · refine le_trans ?_ h2
          simp
        · intro d hd
          rcases h5 d hd with hd' | hd'
          · rcases List.mem_append.mp hd' with hp | hp
            · exact Or.inl hp
            · simp only [List.mem_singleton] at hp
              exact Or.inr (hp ▸ List.mem_map_of_mem Cand.doc hcmem)
          · exact Or.inr hd'

theorem chosenIdxes_ne_nil (resp : SelectorResponse) (n : Nat) (hn : 1 ≤ n) :
    chosenIdxes resp n ≠ [] := by
  simp only [chosenIdxes]
  split
  · exact List.ne_nil_of_length_pos (by assumption)
  · apply List.ne_nil_of_length_pos
    simp only [List.length_take, List.length_cons, List.length_nil]
    omega

/-! ## Claim C9: chosen indices are always in bounds -/

/-- Claim C9: for a non-empty candidate list, every chosen one-based index
(validated branch and fallback branch alike) lies in `[1, ranked.length]`,
so the array access `ranked[oneBased - 1]` always yields a candidate and
the resolution loop never fails. -/
theorem claim_C9 : ∀ (resp : SelectorResponse) (ranked : List Cand),
    ranked ≠ [] →
    (∀ i ∈ chosenIdxes resp ranked.length,
      1 ≤ i ∧ i ≤ (ranked.length : Int)) ∧
    (∀ i ∈ chosenIdxes resp ranked.length,
      (jsGet ranked (i - 1)).isSome) ∧
    (selectDocs ranked resp).isSome := by
  intro resp ranked hne
  have hb := chosenIdxes_bounds resp ranked.length
  refine ⟨hb, ?_, ?_⟩
  · intro i hi
    obtain ⟨c, hc, -⟩ := jsGet_eq_some ranked i (hb i hi).1 (hb i hi).2
    rw [hc]
    rfl
  · obtain ⟨docs, h1, -, -, -, -⟩ := pickDocsLoop_spec ranked
      (chosenIdxes resp ranked.length) [] [] hb rfl (by simp) (by decide)
    rw [selectDocs, h1]
    rfl

theorem claim_C9_witness :
    (∀ i ∈ chosenIdxes (SelectorResponse.parsed (SelVal.arr [JItem.int 5]))
        ([⟨0, ⟨"A", ["a"], "a"⟩, 1⟩] : List Cand).length,
      1 ≤ i ∧ i ≤ (([⟨0, ⟨"A", ["a"], "a"⟩, 1⟩] : List Cand).length : Int)) ∧
    (∀ i ∈ chosenIdxes (SelectorResponse.parsed (SelVal.arr [JItem.int 5]))
        ([⟨0, ⟨"A", ["a"], "a"⟩, 1⟩] : List Cand).length,
      (jsGet [⟨0, ⟨"A", ["a"], "a"⟩, 1⟩] (i - 1)).isSome) ∧
    (selectDocs [⟨0, ⟨"A", ["a"], "a"⟩, 1⟩]
      (SelectorResponse.parsed (SelVal.arr [JItem.int 5]))).isSome :=
  claim_C9 (SelectorResponse.parsed (SelVal.arr [JItem.int 5]))
    [⟨0, ⟨"A", ["a"], "a"⟩, 1⟩] (by decide)

theorem selectDocs_spec (ranked : List Cand) (resp : SelectorResponse)
    (hne : ranked ≠ []) :
    ∃ docs, selectDocs ranked resp = some docs ∧
      1 ≤ docs.length ∧ docs.length ≤ MAX_SELECTED ∧
      (docs.map PathDoc.path).Nodup ∧
      ∀ d ∈ docs, d ∈ ranked.map Cand.doc := by
  have hn : 1 ≤ ranked.length := List.length_pos.mpr hne
  rcases hcc : chosenIdxes resp ranked.length with _ | ⟨i, rest⟩
  · exact absurd hcc (chosenIdxes_ne_nil resp ranked.length hn)
  · have hbounds := chosenIdxes_bounds resp ranked.length
    have hib := hbounds i (hcc ▸ List.mem_cons_self _ _)
    obtain ⟨c, hc, hcmem⟩ := jsGet_eq_some ranked i hib.1 hib.2
    have hstep : selectDocs ranked resp =
        pickDocsLoop ranked rest [c.doc] [c.doc.path] := by
      rw [selectDocs, hcc]
      simp only [pickDocsLoop, hc, List.not_mem_nil, if_neg, ite_false]
      rw [if_neg (by simp [MAX_SELECTED])]
      simp
    obtain ⟨docs, h1, h2, h3, h4, h5⟩ := pickDocsLoop_spec ranked rest
      [c.doc] [c.doc.path]
      (fun j hj => hbounds j (hcc ▸ List.mem_cons_of_mem _ hj))
      (by simp) (by simp) (by simp [MAX_SELECTED])
    refine ⟨docs, hstep ▸ h1, le_trans (by simp) h2, h3, h4, ?_⟩
    intro d hd
    rcases h5 d hd with hd' | hd'
    · simp only [List.mem_singleton] at hd'
      exact hd' ▸ List.mem_map_of_mem Cand.doc hcmem
    · exact hd'

/-! ## Claim C5: the selection step's output contract -/

/-- Claim C5: for every non-empty candidate list and every selector
response, the selection step succeeds and returns between 1 and 4
documents, with pairwise-distinct paths, all drawn from the candidate
list. -/
theorem claim_C5 : ∀ (ranked : List Cand) (resp : SelectorResponse),
    ranked ≠ [] →
    ∃ docs, selectDocs ranked resp = some docs ∧
      1 ≤ docs.length ∧ docs.length ≤ MAX_SELECTED ∧
      (docs.map PathDoc.path).Nodup ∧
      ∀ d ∈ docs, d ∈ ranked.map Cand.doc :=
  fun ranked resp hne => selectDocs_spec ranked resp hne

theorem claim_C5_witness :
    ∃ docs, selectDocs [⟨0, ⟨"A", ["a"], "a"⟩, 1⟩]
        SelectorResponse.parseFail = some docs ∧
      1 ≤ docs.length ∧ docs.length ≤ MAX_SELECTED ∧
      (docs.map PathDoc.path).Nodup ∧
      ∀ d ∈ docs, d ∈ ([⟨0, ⟨"A", ["a"], "a"⟩, 1⟩] : List Cand).map Cand.doc :=
  claim_C5 [⟨0, ⟨"A", ["a"], "a"⟩, 1⟩] SelectorResponse.parseFail (by decide)

/-! ## Helper lemmas for the fallback path -/

theorem chosenIdxes_fallback (resp : SelectorResponse) (n : Nat)
    (hsel : (toNumberArray (payloadIndices resp)).filter (fun m =>
      decide (1 ≤ m) && decide (m ≤ (n : Int))) = []) :
    chosenIdxes resp n = ([1, 2, 3] : List Int).take (min 3 n) := by
  simp only [chosenIdxes, hsel]
  rfl

theorem topPathCandidates_doc_paths (q : String) (index : List PathDoc) :
    (candidatesOf index q).map (fun c => c.doc.path) = index.map PathDoc.path := by
  simp only [candidatesOf, List.map_map]
  rw [show ((fun c : Cand => c.doc.path) ∘
      (fun p : Nat × PathDoc => (⟨p.1, p.2, prefilterScore p.2 q⟩ : Cand))) =
    (PathDoc.path ∘ Prod.snd) from rfl]
  rw [← List.map_map, List.enum_eq_enumFrom, List.enumFrom_map_snd]

theorem topPathCandidates_paths_nodup (q : String) (k : Nat)
    (index : List PathDoc) (h : (index.map PathDoc.path).Nodup) :
    ((topPathCandidates q k index).map fun c => c.doc.path).Nodup := by
  simp only [topPathCandidates, jsSortDesc]
  refine List.Nodup.sublist (List.Sublist.map _ (List.take_sublist _ _)) ?_
  have hperm := (List.perm_insertionSort candLE (candidatesOf index q)).map
    fun c : Cand => c.doc.path
  rw [hperm.nodup_iff, topPathCandidates_doc_paths q index]
  exact h

theorem pickDocs_fallback : ∀ ranked : List Cand,
    ((ranked.map fun c => c.doc.path).Nodup) → ranked ≠ [] →
    pickDocsLoop ranked (([1, 2, 3] : List Int).take (min 3 ranked.length)) [] []
      = some ((ranked.take (min 3 ranked.length)).map Cand.doc)
  | [], _, hne => absurd rfl hne
  | [c1], _, _ => rfl
  | [c1, c2], hnd, _ => by
    have h1 : c1.doc.path ∉ List.map (fun c => c.doc.path) [c2] := by
      rw [List.map_cons, List.nodup_cons] at hnd
      exact hnd.1
    have hne21 : ¬c2.doc.path = c1.doc.path := fun h =>
      h1 (List.mem_map.mpr ⟨c2, by simp, h⟩)
    have s1 : jsGet [c1, c2] (1 - 1) = some c1 := rfl
    have s2 : jsGet [c1, c2] (2 - 1) = some c2 := rfl
    rw [show (([1, 2, 3] : List Int)).take (min 3 ([c1, c2] : List Cand).length) =
      [1, 2] from rfl]
    rw [show (([c1, c2] : List Cand)).take (min 3 ([c1, c2] : List Cand).length) =
      [c1, c2] from rfl]
    simp only [pickDocsLoop, s1, s2, List.not_mem_nil, List.mem_singleton,
      hne21, if_false, ite_false, List.nil_append, List.map_cons, List.map_nil]
    rfl
  | c1 :: c2 :: c3 :: rest, hnd, _ => by
    have hmin : min 3 (c1 :: c2 :: c3 :: rest : List Cand).length = 3 := by
      simp only [List.length_cons]
      omega
    have h1 : c1.doc.path ∉ List.map (fun c => c.doc.path) (c2 :: c3 :: rest) := by
      rw [List.map_cons, List.nodup_cons] at hnd
      exact hnd.1
    have h2 : c2.doc.path ∉ List.map (fun c => c.doc.path) (c3 :: rest) := by
      rw [List.map_cons, List.nodup_cons, List.map_cons, List.nodup_cons] at hnd
      exact hnd.2.1
    have hne21 : ¬c2.doc.path = c1.doc.path := fun h =>
      h1 (List.mem_map.mpr ⟨c2, by simp, h⟩)
    have hne31 : ¬c3.doc.path = c1.doc.path := fun h =>
      h1 (List.mem_map.mpr ⟨c3, by simp, h⟩)
    have hne32 : ¬c3.doc.path = c2.doc.path := fun h =>
      h2 (List.mem_map.mpr ⟨c3, by simp, h⟩)
    have s1 : jsGet (c1 :: c2 :: c3 :: rest) (1 - 1) = some c1 := by
      simp [jsGet]
    have s2 : jsGet (c1 :: c2 :: c3 :: rest) (2 - 1) = some c2 := by
      simp [jsGet]
    have s3 : jsGet (c1 :: c2 :: c3 :: rest) (3 - 1) = some c3 := by
      simp [jsGet]
    rw [hmin]
    rw [show (([1, 2, 3] : List Int)).take 3 = [1, 2, 3] from rfl]
    rw [show ((c1 :: c2 :: c3 :: rest : List Cand)).take 3 = [c1, c2, c3] from rfl]
    simp only [pickDocsLoop, s1, s2, s3, List.not_mem_nil, List.singleton_append,
      List.mem_cons, List.mem_singleton, hne21, hne31, hne32, or_self,
      if_false, ite_false, List.nil_append, List.map_cons, List.map_nil]
    rfl

/-! ## Claim C1: unusable selector output falls back to the top 3 -/

/-- Claim C1: when the selector response body fails to parse, or its
`selected_indices` is not an array, or the coerced list is empty after
range filtering, the selection step returns the first
`min(3, candidate_count)` candidates in prefilter rank order. -/
theorem claim_C1 : ∀ (rows : List Row) (q : String) (resp : SelectorResponse),
    topPathCandidates q PREFILTER_TOP_K (buildIndex rows) ≠ [] →
    (resp = SelectorResponse.parseFail ∨
      (∃ v, resp = SelectorResponse.parsed v ∧ ∀ xs, v ≠ SelVal.arr xs) ∨
      (toNumberArray (payloadIndices resp)).filter (fun m =>
        decide (1 ≤ m) && decide (m ≤
          ((topPathCandidates q PREFILTER_TOP_K (buildIndex rows)).length : Int)))
        = []) →
    selectDocs (topPathCandidates q PREFILTER_TOP_K (buildIndex rows)) resp =
      some (((topPathCandidates q PREFILTER_TOP_K (buildIndex rows)).take
        (min 3 (topPathCandidates q PREFILTER_TOP_K
          (buildIndex rows)).length)).map Cand.doc) := by
  intro rows q resp hne hfail
  have hsel : (toNumberArray (payloadIndices resp)).filter (fun m =>
      decide (1 ≤ m) && decide (m ≤
        ((topPathCandidates q PREFILTER_TOP_K (buildIndex rows)).length : Int)))
      = [] := by
    rcases hfail with rfl | ⟨v, rfl, hv⟩ | h
    · rfl
    · cases v with
      | undef => rfl
      | notArr => rfl
      | arr xs => exact absurd rfl (hv xs)
    · exact h
  rw [selectDocs, chosenIdxes_fallback resp _ hsel]
  exact pickDocs_fallback _
    (topPathCandidates_paths_nodup q PREFILTER_TOP_K (buildIndex rows)
      (buildIndex_paths_nodup rows)) hne

theorem claim_C1_witness :
    selectDocs (topPathCandidates "alpha" PREFILTER_TOP_K
        (buildIndex [Row.mk "Item 1" "alpha", Row.mk "Item 2" "beta"]))
        SelectorResponse.parseFail =
      some (((topPathCandidates "alpha" PREFILTER_TOP_K
        (buildIndex [Row.mk "Item 1" "alpha", Row.mk "Item 2" "beta"])).take
          (min 3 (topPathCandidates "alpha" PREFILTER_TOP_K
            (buildIndex [Row.mk "Item 1" "alpha",
              Row.mk "Item 2" "beta"])).length)).map Cand.doc) :=
  claim_C1 [Row.mk "Item 1" "alpha", Row.mk "Item 2" "beta"] "alpha"
    SelectorResponse.parseFail (by decide) (Or.inl rfl)

/-! ## Claim C8: the advice appends an exact, numbered Sources block -/

/-- Claim C8: on the success path, the `advice` field is the model's
trimmed answer text followed by a blank line and a `Sources:` block whose
lines number the selected documents from 1 in selection order as
`i. **path**`; the listed documents are exactly those resolved by the
selection step (the same list that grounds the answer context), with no
path duplicated, omitted, or added. -/
theorem claim_C8 : ∀ (body : BodyParse) (index : List PathDoc)
    (resp : SelectorResponse) (ac : Option String),
    questionOf (bodyScenario body) ≠ "" →
    topPathCandidates (questionOf (bodyScenario body)) PREFILTER_TOP_K index
      ≠ [] →
    ∃ (docs : List PathDoc) (lines : List String),
      selectDocs (topPathCandidates (questionOf (bodyScenario body))
        PREFILTER_TOP_K index) resp = some docs ∧
      POST true body index resp ac =
        ⟨answerTextOf ac ++ "\n\nSources:\n" ++ String.intercalate "\n" lines,
          200⟩ ∧
      lines.length = docs.length ∧
      (∀ (i : Nat) (d : PathDoc), docs[i]? = some d →
        lines[i]? = some (toString (i + 1) ++ ". **" ++ d.path ++ "**")) ∧
      (docs.map PathDoc.path).Nodup ∧
      buildAnswerContext docs = String.intercalate "\n\n"
        (docs.map fun d =>
          "[" ++ d.path ++ "]\n" ++ String.intercalate "\n\n" d.contents) := by
  intro body index resp ac hq hne
  obtain ⟨docs, hsel, -, -, hnd, -⟩ := selectDocs_spec _ resp hne
  refine ⟨docs,
    docs.enum.map (fun p => toString (p.1 + 1) ++ ". **" ++ p.2.path ++ "**"),
    hsel, ?_, ?_, ?_, hnd, rfl⟩
  · simp only [POST]
    rw [if_neg (by decide), if_neg hq]
    simp only [afterQuestion]
    rw [if_neg hne, hsel]
    rfl
  · simp [List.enum_eq_enumFrom]
  · intro i d hd
    rw [List.getElem?_map, List.enum_eq_enumFrom, List.getElem?_enumFrom, hd]
    simp

theorem claim_C8_witness :
    ∃ (docs : List PathDoc) (lines : List String),
      selectDocs (topPathCandidates
        (questionOf (bodyScenario (BodyParse.ok (some "alpha"))))
        PREFILTER_TOP_K [⟨"Item 1", ["alpha"], "alpha"⟩])
        SelectorResponse.parseFail = some docs ∧
      POST true (BodyParse.ok (some "alpha")) [⟨"Item 1", ["alpha"], "alpha"⟩]
        SelectorResponse.parseFail (some " Done. ") =
        ⟨answerTextOf (some " Done. ") ++ "\n\nSources:\n" ++
          String.intercalate "\n" lines, 200⟩ ∧
      lines.length = docs.length ∧
      (∀ (i : Nat) (d : PathDoc), docs[i]? = some d →
        lines[i]? = some (toString (i + 1) ++ ". **" ++ d.path ++ "**")) ∧
      (docs.map PathDoc.path).Nodup ∧
      buildAnswerContext docs = String.intercalate "\n\n"
        (docs.map fun d =>
          "[" ++ d.path ++ "]\n" ++ String.intercalate "\n\n" d.contents) :=
  claim_C8 (BodyParse.ok (some "alpha")) [⟨"Item 1", ["alpha"], "alpha"⟩]
    SelectorResponse.parseFail (some " Done. ") (by decide) (by decide)

end SynthesizerAgent
